import Mathlib

/-!
Verification of the pymc repository's dependency-graph, lazy-evaluation and
MCMC step-method core against its specification.

Numeric values carried by the Python code (floats) are embedded as rationals
`ℚ`; decimal literals such as `0.1` are read exactly.  Machine randomness
(`numpy.random.uniform`, `bern`) is embedded as an explicit stream of draws
threaded through the functions that consume it.  Python exceptions are
embedded as explicit `Except`/`Option` error results.
-/

/-- The exception kinds raised by the embedded code: `ZeroProbability`
(src/pymc/Node.py, lines 13-15), `AttributeError` (raised by the value
setters in src/PyMC2/PyMCObjects.py) and `KeyError` (raised by `dict` and
`set` primitives used by `ParentDict.__setitem__`). -/
inductive PyExc where
  | zeroProbability
  | attributeError
  | keyError
deriving DecidableEq, Repr

/-! ## Metropolis tuning (src/pymc3/step_methods/metropolis.py, `tune`, lines 141-177) -/

/-- Embedding of `tune(scale, acc_rate)` from
src/pymc3/step_methods/metropolis.py: the if/elif ladder multiplying the
proposal scale by a step function of the acceptance rate. -/
def tune (scale accRate : ℚ) : ℚ :=
  if accRate < 0.001 then scale * 0.1
  else if accRate < 0.05 then scale * 0.5
  else if accRate < 0.2 then scale * 0.9
  else if accRate > 0.95 then scale * 10
  else if accRate > 0.75 then scale * 2
  else if accRate > 0.5 then scale * 1.1
  else scale

/-- Claim C4: for every positive scale `s` and acceptance rate `r`, `tune`
returns `s` multiplied by exactly one step-function factor: 0.1 when
`r < 0.001`, 0.5 when `0.001 ≤ r < 0.05`, 0.9 when `0.05 ≤ r < 0.2`,
unchanged when `0.2 ≤ r ≤ 0.5`, 1.1 when `0.5 < r ≤ 0.75`, 2 when
`0.75 < r ≤ 0.95`, and 10 when `r > 0.95`. -/
theorem tune_step_function (s r : ℚ) (_hs : 0 < s) :
    (r < 0.001 → tune s r = s * 0.1) ∧
    (0.001 ≤ r ∧ r < 0.05 → tune s r = s * 0.5) ∧
    (0.05 ≤ r ∧ r < 0.2 → tune s r = s * 0.9) ∧
    (0.2 ≤ r ∧ r ≤ 0.5 → tune s r = s * 1) ∧
    (0.5 < r ∧ r ≤ 0.75 → tune s r = s * 1.1) ∧
    (0.75 < r ∧ r ≤ 0.95 → tune s r = s * 2) ∧
    (r > 0.95 → tune s r = s * 10) := by
  unfold tune
  refine ⟨?_, ?_, ?_, ?_, ?_, ?_, ?_⟩ <;> intro h
  · rw [if_pos h]
  · rw [if_neg (by linarith [h.1]), if_pos h.2]
  · rw [if_neg (by linarith [h.1]), if_neg (by linarith [h.1]), if_pos h.2]
  · rw [if_neg (by linarith [h.1]), if_neg (by linarith [h.1]),
      if_neg (by linarith [h.1]), if_neg (by simp only [not_lt]; linarith [h.2]),
      if_neg (by simp only [not_lt]; linarith [h.2]),
      if_neg (by simp only [not_lt]; linarith [h.2]), mul_one]
  · rw [if_neg (by linarith [h.1]), if_neg (by linarith [h.1]),
      if_neg (by linarith [h.1]), if_neg (by simp only [not_lt]; linarith [h.2]),
      if_neg (by simp only [not_lt]; linarith [h.2]), if_pos h.1]
  · rw [if_neg (by linarith [h.1]), if_neg (by linarith [h.1]),
      if_neg (by linarith [h.1]), if_neg (by simp only [not_lt]; linarith [h.2]),
      if_pos h.1]
  · rw [if_neg (by linarith), if_neg (by linarith), if_neg (by linarith),
      if_pos h]

/-- Witness for `tune_step_function` at the concrete input `s = 1`,
`r = 0`: the rate falls in the lowest band and the scale is multiplied
by 0.1. -/
theorem tune_step_function_witness :
    0 < (1 : ℚ) ∧ tune 1 0 = 1 * 0.1 :=
  ⟨by norm_num, (tune_step_function 1 0 (by norm_num)).1 (by norm_num)⟩

/-! ## Metropolis acceptance (src/pymc3/step_methods/arraystep.py, `metrop_select`, lines 314-335) -/

/-- An IEEE double as classified by `np.isfinite`: either a finite value
(embedded as a rational) or one of the non-finite values. -/
inductive FloatVal where
  | finite (x : ℚ)
  | nan
  | posInf
  | negInf
deriving DecidableEq, Repr

/-- Embedding of `np.isfinite`. -/
def FloatVal.isfinite : FloatVal → Bool
  | .finite _ => true
  | _ => false

/-- Embedding of `metrop_select(mr, q, q0)` from
src/pymc3/step_methods/arraystep.py: returns `(q, True)` when
`np.isfinite(mr) and np.log(uniform()) < mr`, else `(q0, False)`.
Python's `and` short-circuits, so the uniform draw `logu` (embedded as the
already-taken logarithm of the draw) is only compared when `mr` is finite. -/
def metropSelect {α : Type} (mr : FloatVal) (q q0 : α) (logu : ℚ) : α × Bool :=
  match mr with
  | .finite r => if logu < r then (q, true) else (q0, false)
  | _ => (q0, false)

/-- Claim C5: `metrop_select(mr, q, q0)` returns the candidate `q` (with the
accepted flag) if and only if `mr` is finite and `log(uniform(0,1)) < mr`;
whenever `mr` is non-finite it returns the current value `q0` for every
possible random draw, without raising any exception (the embedding is a
total function). -/
theorem metrop_select_accepts_iff {α : Type} (mr : FloatVal) (q q0 : α) (logu : ℚ) :
    (metropSelect mr q q0 logu = (q, true) ↔ ∃ r, mr = .finite r ∧ logu < r) ∧
    (mr.isfinite = false → ∀ lu : ℚ, metropSelect mr q q0 lu = (q0, false)) := by
  constructor
  · constructor
    · intro h
      cases mr with
      | finite r =>
          refine ⟨r, rfl, ?_⟩
          by_contra hlt
          simp only [metropSelect, if_neg hlt, Prod.mk.injEq] at h
          exact Bool.false_ne_true h.2
      | nan => simp only [metropSelect, Prod.mk.injEq] at h
               exact absurd h.2 Bool.false_ne_true
      | posInf => simp only [metropSelect, Prod.mk.injEq] at h
                  exact absurd h.2 Bool.false_ne_true
      | negInf => simp only [metropSelect, Prod.mk.injEq] at h
                  exact absurd h.2 Bool.false_ne_true
    · rintro ⟨r, rfl, hlt⟩
      simp [metropSelect, hlt]
  · intro hfin lu
    cases mr with
    | finite r => simp [FloatVal.isfinite] at hfin
    | nan => rfl
    | posInf => rfl
    | negInf => rfl

/-- Witness for `metrop_select_accepts_iff` at the concrete input
`mr = nan`, `q = 1`, `q0 = 0`: the candidate is rejected for the draw 5. -/
theorem metrop_select_accepts_iff_witness :
    FloatVal.isfinite .nan = false ∧ metropSelect (α := ℤ) .nan 1 0 5 = (0, false) :=
  ⟨by rfl, (metrop_select_accepts_iff (α := ℤ) .nan 1 0 5).2 (by rfl) 5⟩

/-! ## ZeroProbability on the logp attribute (src/PyMC2/PyMCObjects.py, `Parameter.get_logp`, lines 262-274) -/

/-- The sentinel `self.d_neg_inf = float(-1.79E308)` from
src/PyMC2/PyMCObjects.py line 198, read exactly as a decimal. -/
def d_neg_inf : ℚ := -(179 * 10 ^ 306)

/-- Embedding of `Parameter.get_logp` from src/PyMC2/PyMCObjects.py: the
log-probability `logp` computed by the lazy function is checked against the
sentinel; at or below it a `ZeroProbability` is raised, otherwise `logp` is
returned unchanged. -/
def getLogp (logp : ℚ) : Except PyExc ℚ :=
  if logp ≤ d_neg_inf then .error .zeroProbability else .ok logp

/-- Claim C8: reading a stochastic Parameter's `logp` attribute raises the
dedicated `ZeroProbability` exception exactly when the computed log-density
is at most the sentinel `-1.79E308`, otherwise returns the computed
log-density unchanged; no other exception kind is produced by this path. -/
theorem get_logp_zero_probability (l : ℚ) :
    (getLogp l = .error .zeroProbability ↔ l ≤ d_neg_inf) ∧
    (d_neg_inf < l → getLogp l = .ok l) ∧
    (∀ e : PyExc, getLogp l = .error e → e = .zeroProbability) := by
  refine ⟨⟨?_, ?_⟩, ?_, ?_⟩
  · intro h
    by_contra hle
    rw [getLogp, if_neg hle] at h
    exact Except.noConfusion h
  · intro h
    simp [getLogp, h]
  · intro h
    rw [getLogp, if_neg (by simp only [not_le]; exact h)]
  · intro e h
    by_cases hle : l ≤ d_neg_inf
    · simp only [getLogp, if_pos hle, Except.error.injEq] at h
      exact h.symm
    · rw [getLogp, if_neg hle] at h
      exact Except.noConfusion h

/-- Witness for `get_logp_zero_probability` at the concrete input `l = 0`:
above the sentinel, the log-density is returned unchanged. -/
theorem get_logp_zero_probability_witness :
    d_neg_inf < (0 : ℚ) ∧ getLogp 0 = .ok 0 :=
  ⟨by norm_num [d_neg_inf], (get_logp_zero_probability 0).2.1 (by norm_num [d_neg_inf])⟩

/-! ## Value assignment (src/PyMC2/PyMCObjects.py, `Parameter.set_value` lines 245-259 and `Node.set_value` lines 87-90) -/

/-- The mutable state of a PyMC2 `Parameter` relevant to value assignment:
the `isdata` flag, the stored `_value`, and `last_value` (`none` while the
attribute has not been set yet). -/
structure ParamState (α : Type) where
  isdata : Bool
  value : α
  lastValue : Option α
deriving DecidableEq, Repr

/-- Embedding of `Parameter.set_value` from src/PyMC2/PyMCObjects.py: when
`isdata` is set an `AttributeError` is raised before any mutation; otherwise
the previous value is saved into `last_value` and the new value stored. -/
def parameterSetValue {α : Type} (st : ParamState α) (v : α) :
    Option PyExc × ParamState α :=
  if st.isdata then (some .attributeError, st)
  else (none, { isdata := st.isdata, value := v, lastValue := some st.value })

/-- Embedding of `Node.set_value` from src/PyMC2/PyMCObjects.py: assigning
to a deterministic Node's value unconditionally raises `AttributeError`,
mutating nothing. -/
def nodeSetValue {σ α : Type} (st : σ) (_v : α) : Option PyExc × σ :=
  (some .attributeError, st)

/-- Claim C10: assigning to the value of a Parameter whose `isdata` flag is
set, or of any deterministic Node, raises `AttributeError` and leaves the
stored value (and, for Parameters, `last_value`) unchanged; a non-data
Parameter accepts the assignment and saves the previous value into
`last_value`. -/
theorem set_value_isdata_guard {α σ β : Type} (st : ParamState α) (v : α)
    (ns : σ) (w : β) :
    (st.isdata = true → parameterSetValue st v = (some .attributeError, st)) ∧
    (st.isdata = false →
      parameterSetValue st v =
        (none, { isdata := false, value := v, lastValue := some st.value })) ∧
    nodeSetValue ns w = (some .attributeError, ns) := by
  refine ⟨?_, ?_, rfl⟩
  · intro h
    simp [parameterSetValue, h]
  · intro h
    simp [parameterSetValue, h]

/-- Witness for `set_value_isdata_guard` at a concrete data Parameter
holding value 3: the assignment of 7 errors and the state is unchanged. -/
theorem set_value_isdata_guard_witness :
    (⟨true, 3, none⟩ : ParamState ℤ).isdata = true ∧
    parameterSetValue (⟨true, 3, none⟩ : ParamState ℤ) 7 =
      (some .attributeError, ⟨true, 3, none⟩) :=
  ⟨rfl, (set_value_isdata_guard (⟨true, 3, none⟩ : ParamState ℤ) 7 (0 : ℤ) (0 : ℤ)).1 rfl⟩

/-! ## ParentDict.__setitem__ (src/PyMC2/PyMCBase.py, lines 19-44) -/

/-- A value held under a key of a `ParentDict`: either a PyMC object
(identified by its object id, modelling CPython identity) or a non-PyMC
constant. -/
inductive PValue where
  | obj (id : ℕ)
  | const (c : ℤ)
deriving DecidableEq, Repr

/-- The `children` sets of all PyMC objects, as an association list from
object id to the list of member ids (Python `set` semantics: no duplicate
members). -/
abbrev ChildrenMap := List (ℕ × List ℕ)

/-- The children set of object `i` (empty when `i` is not tracked). -/
def childrenOf (m : ChildrenMap) (i : ℕ) : List ℕ :=
  ((m.find? fun e => decide (e.1 = i)).map Prod.snd).getD []

/-- Replace the children set of object `i`. -/
def setChildren (m : ChildrenMap) (i : ℕ) (cs : List ℕ) : ChildrenMap :=
  m.map fun e => if e.1 = i then (e.1, cs) else e

/-- Python `set.add`: inserting an existing member is a no-op. -/
def childAdd (m : ChildrenMap) (i owner : ℕ) : ChildrenMap :=
  let cs := childrenOf m i
  if owner ∈ cs then m else setChildren m i (cs ++ [owner])

/-- Python `set.remove`: removing an absent member raises `KeyError`. -/
def childRemove (m : ChildrenMap) (i owner : ℕ) : Except PyExc ChildrenMap :=
  let cs := childrenOf m i
  if owner ∈ cs then .ok (setChildren m i (cs.erase owner)) else .error .keyError

/-- In the source the membership scan runs
`if item[0] is old_parent and not item[1] == key`, where `item[0]` is a
string dictionary key and `old_parent` a `PyMCBase` instance: a `str` key
is never the identical object to a `PyMCBase` instance, so the identity
test is always False. -/
def pyIsKeyObj (_key : String) (_objId : ℕ) : Bool := false

/-- `item[1] == key` compares a parent value (a `PyMCBase` instance or a
numeric constant) with a string key; in Python 2 both comparisons yield
False (default object equality, cross-type number/str comparison). -/
def pyEqValueKey (_v : PValue) (_key : String) : Bool := false

/-- Embedding of the `only_reference` scan of `ParentDict.__setitem__`
(src/PyMC2/PyMCBase.py lines 25-31): `only_reference` stays `True` unless
some item satisfies `item[0] is old_parent and not item[1] == key`. -/
def onlyReference (entries : List (String × PValue)) (key : String) (oldId : ℕ) : Bool :=
  entries.all fun it => !(pyIsKeyObj it.1 oldId && !(pyEqValueKey it.2 key))

/-- `dict.__getitem__`: look up a key, `KeyError` when absent. -/
def dictGet (entries : List (String × PValue)) (key : String) : Except PyExc PValue :=
  match entries.find? fun e => decide (e.1 = key) with
  | some e => .ok e.2
  | none => .error .keyError

/-- `dict.__setitem__` on an existing key (insertion order preserved). -/
def dictSet (entries : List (String × PValue)) (key : String) (v : PValue) :
    List (String × PValue) :=
  entries.map fun e => if e.1 = key then (e.1, v) else e

/-- Embedding of `ParentDict.__setitem__(key, new_parent)` from
src/PyMC2/PyMCBase.py lines 19-44, for the dictionary `parents` owned by
node `owner` against the graph-wide children map: read the old parent;
if it is a PyMC object, run the `only_reference` scan and, when it reports
the key as the only reference, remove the owner from the old parent's
children set; add the owner to a PyMC-object new parent's children set;
store the new value.  (`owner.gen_lazy_function()` rebuilds the owner's
lazy evaluator and does not touch the edge sets.) -/
def parentDictSetitem (children : ChildrenMap) (owner : ℕ)
    (parents : List (String × PValue)) (key : String) (newParent : PValue) :
    Except PyExc (ChildrenMap × List (String × PValue)) := do
  let oldParent ← dictGet parents key
  let children1 ←
    match oldParent with
    | .obj oid =>
        if onlyReference parents key oid then childRemove children oid owner
        else pure children
    | .const _ => pure children
  let children2 :=
    match newParent with
    | .obj nid => childAdd children1 nid owner
    | .const _ => children1
  return (children2, dictSet parents key newParent)

/-- The dependency-symmetry invariant between one node's parents dictionary
and the graph's children sets: every PyMC object among the parent values has
the owner in its children set. -/
def parentsChildrenSymmetric (children : ChildrenMap) (owner : ℕ)
    (parents : List (String × PValue)) : Bool :=
  parents.all fun e =>
    match e.2 with
    | .obj oid => decide (owner ∈ childrenOf children oid)
    | .const _ => true

/-- Claim C1 evaluated at the failing input.  Node B (id 1) references node
A (id 0) under both keys, 'a' and 'b', and A's children set contains B.
Reassigning only `B.parents['a']` to node C (id 2) must, per the claim and
the source's own comment, keep B in A's children set because A is still
referenced under 'b'.  The code instead removes B from A's children set:
the `only_reference` scan compares the string keys to `old_parent` by
identity, which never matches, so the old parent is always treated as
singly-referenced.  Afterwards A appears among B's parent values while B is
not in A's children set: the symmetry invariant is broken. -/
theorem parent_dict_setitem_breaks_symmetry :
    parentDictSetitem [(0, [1]), (2, [])] 1
        [("a", PValue.obj 0), ("b", PValue.obj 0)] "a" (PValue.obj 2) =
      .ok ([(0, []), (2, [1])], [("a", PValue.obj 2), ("b", PValue.obj 0)]) ∧
    parentsChildrenSymmetric [(0, [1]), (2, [])] 1
        [("a", PValue.obj 0), ("b", PValue.obj 0)] = true ∧
    parentsChildrenSymmetric [(0, []), (2, [1])] 1
        [("a", PValue.obj 2), ("b", PValue.obj 0)] = false := by
  refine ⟨by rfl, by decide, by decide⟩

/-! ## Lazy evaluation (src/PyMC2/PyMCObjects.py `Node.get_value` lines 81-85 delegates to `LazyFunction.get`) -/

/-- The mutable state of a lazy evaluator: the ring cache (newest entry
first, each entry a snapshot of the parent values together with the result
computed from them) and an instrumentation counter of user-function
invocations. -/
structure LazyState (α β : Type) where
  cache : List (List α × β)
  calls : ℕ
deriving DecidableEq, Repr

/-- Modelled from the spec: `LazyFunction.get`.  The `LazyFunction` /
`PyrexLazyFunction` module imported by `import_LazyFunction`
(src/PyMC2/PyMCObjects.py lines 8-17) is not present under src/; only its
callers are.  Spec section 4.1: `get` examines the cache, newest first; a
cache entry matches if every parent's current value is identical to the
value stored in that entry; on hit it returns the cached result with no
recomputation and no side effects; on miss it evaluates the node's function
against the current parent values, pushes a new cache entry (evicting the
oldest if at capacity `cache_depth`), and returns the fresh result. -/
def lazyGet {α β : Type} [DecidableEq α] (f : List α → β) (depth : ℕ)
    (parentVals : List α) (st : LazyState α β) : β × LazyState α β :=
  match st.cache.find? fun e => decide (e.1 = parentVals) with
  | some e => (e.2, st)
  | none =>
      (f parentVals,
       { cache := ((parentVals, f parentVals) :: st.cache).take depth,
         calls := st.calls + 1 })

/-- Claim C3: two calls of the lazy getter with no change to the parent
values in between return the same result and the second call does not
invoke the user function (the whole call, invocation counter included, is a
no-op on the state); and a call hits the cache, leaving the state entirely
unchanged (no side effects), exactly when some cache entry stores a
snapshot identical to the current parent values. -/
theorem lazy_get_cached {α β : Type} [DecidableEq α] (f : List α → β)
    (depth : ℕ) (pv : List α) (st : LazyState α β) (hdepth : 1 ≤ depth) :
    lazyGet f depth pv (lazyGet f depth pv st).2 = lazyGet f depth pv st ∧
    ((∃ e ∈ st.cache, e.1 = pv) ↔ (lazyGet f depth pv st).2 = st) := by
  constructor
  · cases hfind : st.cache.find? fun e => decide (e.1 = pv) with
    | some e =>
        have h1 : lazyGet f depth pv st = (e.2, st) := by
          simp [lazyGet, hfind]
        rw [h1]
        simp [lazyGet, hfind, h1]
    | none =>
        have h1 : lazyGet f depth pv st =
            (f pv, { cache := ((pv, f pv) :: st.cache).take depth,
                     calls := st.calls + 1 }) := by
          simp [lazyGet, hfind]
        rw [h1]
        obtain ⟨d, rfl⟩ : ∃ d, depth = d + 1 := ⟨depth - 1, (Nat.succ_pred_eq_of_pos hdepth).symm⟩
        simp [lazyGet, List.take_succ_cons, List.find?_cons]
  · constructor
    · rintro ⟨e, he, hpv⟩
      have : (st.cache.find? fun e => decide (e.1 = pv)).isSome := by
        apply List.find?_isSome.mpr
        exact ⟨e, he, by simp [hpv]⟩
      cases hfind : st.cache.find? fun e => decide (e.1 = pv) with
      | some e2 => simp [lazyGet, hfind]
      | none => rw [hfind] at this; simp at this
    · intro h
      cases hfind : st.cache.find? fun e => decide (e.1 = pv) with
      | some e2 =>
          have := List.find?_some hfind
          have hmem := List.mem_of_find?_eq_some hfind
          exact ⟨e2, hmem, by simpa using this⟩
      | none =>
          exfalso
          simp only [lazyGet, hfind] at h
          have : st.calls + 1 = st.calls := congrArg LazyState.calls h
          omega

/-- Witness for `lazy_get_cached` at the concrete input `f = List.length`,
`depth = 2`, parent snapshot `[5]`, empty initial state: the second call
equals the first call's output (no second invocation) and the miss is
visible in the state. -/
theorem lazy_get_cached_witness :
    1 ≤ 2 ∧
    lazyGet (α := ℤ) (β := ℕ) List.length 2 [5]
        (lazyGet (α := ℤ) (β := ℕ) List.length 2 [5] ⟨[], 0⟩).2 =
      lazyGet (α := ℤ) (β := ℕ) List.length 2 [5] ⟨[], 0⟩ :=
  ⟨by norm_num,
   (lazy_get_cached (α := ℤ) (β := ℕ) List.length 2 [5] ⟨[], 0⟩ (by norm_num)).1⟩

/-! ## NUTS tree building (src/pymc3/step_methods/nuts.py, `buildtree` lines 147-172 and `NUTS.astep` lines 101-138) -/

/-- One deviate from the stream of `numpy.random.uniform()` draws; an
exhausted stream yields the default draw 1 (which makes every `bern` test
false, as `uniform()` never reaches 1). -/
def drawU : List ℚ → ℚ × List ℚ
  | [] => (1, [])
  | u :: rest => (u, rest)

/-- The tuple returned by one `buildtree` call, with three instrumentation
fields: `leaps` counts the leapfrog evaluations performed in the subtree,
`dEs` lists the energy error of every leapfrog evaluation in the subtree,
and `dots` lists the pair of endpoint dot products
`(span·pn, span·pp)` checked at every doubling performed in the subtree. -/
structure BTResult where
  qn : ℚ
  pn : ℚ
  qp : ℚ
  pp : ℚ
  q1 : ℚ
  n1 : ℕ
  s1 : ℕ
  a1 : ℚ
  na1 : ℕ
  rng : List ℚ
  leaps : ℕ
  dEs : List ℚ
  dots : List (ℚ × ℚ)
deriving DecidableEq, Repr

/-- Embedding of `buildtree(H, q, p, u, v, j, e, Emax, q0, p0)` from
src/pymc3/step_methods/nuts.py lines 147-172, for a one-dimensional state.
The compiled theano function `leapfrog1_dE` (which takes the current point
and the signed step `v*e`, with `q0, p0` fixed) is abstracted as
`leap v q p = (q1, p1, dE)`; `exp` in the accept statistic
`a = min(1, exp(-dE))` is abstracted as `aexp`; `u` enters only through
`log(u)`, embedded as `lu`; `bern` draws are uniform deviates from the
`rng` stream compared against the probability. -/
def buildtree (leap : ℤ → ℚ → ℚ → ℚ × ℚ × ℚ) (aexp : ℚ → ℚ)
    (q p lu : ℚ) (v : ℤ) (j : ℕ) (Emax : ℚ) (rng : List ℚ) : BTResult :=
  match j with
  | 0 =>
      let r := leap v q p
      { qn := r.1, pn := r.2.1, qp := r.1, pp := r.2.1, q1 := r.1,
        n1 := if lu + r.2.2 ≤ 0 then 1 else 0,
        s1 := if lu + r.2.2 < Emax then 1 else 0,
        a1 := min 1 (aexp (-r.2.2)), na1 := 1, rng := rng,
        leaps := 1, dEs := [r.2.2], dots := [] }
  | j' + 1 =>
      let r := buildtree leap aexp q p lu v j' Emax rng
      if r.s1 = 1 then
        let start := if v = -1 then (r.qn, r.pn) else (r.qp, r.pp)
        let r2 := buildtree leap aexp start.1 start.2 lu v j' Emax r.rng
        let qn := if v = -1 then r2.qn else r.qn
        let pn := if v = -1 then r2.pn else r.pn
        let qp := if v = -1 then r.qp else r2.qp
        let pp := if v = -1 then r.pp else r2.pp
        let d := drawU r2.rng
        let q1 := if d.1 < (r2.n1 : ℚ) / ((max (r.n1 + r2.n1) 1 : ℕ) : ℚ)
                  then r2.q1 else r.q1
        let span := qp - qn
        { qn := qn, pn := pn, qp := qp, pp := pp, q1 := q1,
          n1 := r.n1 + r2.n1,
          s1 := r2.s1 * (if 0 ≤ span * pn then 1 else 0) *
                  (if 0 ≤ span * pp then 1 else 0),
          a1 := r.a1 + r2.a1, na1 := r.na1 + r2.na1,
          rng := d.2, leaps := r.leaps + r2.leaps, dEs := r.dEs ++ r2.dEs,
          dots := (r.dots ++ r2.dots) ++ [(span * pn, span * pp)] }
      else r

/-- The state of the tree-doubling `while s == 1` loop of `NUTS.astep`
(src/pymc3/step_methods/nuts.py lines 108-128). -/
structure NutsLoopState where
  q : ℚ
  qn : ℚ
  qp : ℚ
  p : ℚ
  pn : ℚ
  pp : ℚ
  n : ℕ
  s : ℕ
  j : ℕ
  rng : List ℚ
deriving DecidableEq, Repr

/-- Embedding of one iteration of the `while s == 1` body of `NUTS.astep`:
draw `v = bern(.5) * 2 - 1`, build a subtree of depth `j` in that
direction, update the trajectory endpoints, possibly move the proposal `q`
(the deviate for `bern(min(1, n1/n))` is drawn only when `s1 == 1`, as
Python's `and` short-circuits), accumulate `n`, recompute the continue
flag `s`, and increment `j`. -/
def nutsDoubling (leap : ℤ → ℚ → ℚ → ℚ × ℚ × ℚ) (aexp : ℚ → ℚ)
    (lu Emax : ℚ) (st : NutsLoopState) : NutsLoopState :=
  let d := drawU st.rng
  let v : ℤ := if d.1 < 0.5 then 1 else -1
  let r := if v = -1 then buildtree leap aexp st.qn st.pn lu v st.j Emax d.2
           else buildtree leap aexp st.qp st.pp lu v st.j Emax d.2
  let qn := if v = -1 then r.qn else st.qn
  let pn := if v = -1 then r.pn else st.pn
  let qp := if v = -1 then st.qp else r.qp
  let pp := if v = -1 then st.pp else r.pp
  let acc := if r.s1 = 1 then
               let d2 := drawU r.rng
               (decide (d2.1 < min 1 ((r.n1 : ℚ) / (st.n : ℚ))), d2.2)
             else (false, r.rng)
  let q := if acc.1 then r.q1 else st.q
  let span := qp - qn
  { q := q, qn := qn, qp := qp, p := st.p, pn := pn, pp := pp,
    n := st.n + r.n1,
    s := r.s1 * (if 0 ≤ span * pn then 1 else 0) *
           (if 0 ≤ span * pp then 1 else 0),
    j := st.j + 1, rng := acc.2 }

/-- The guarded loop body: a doubling happens only while `s == 1`. -/
def nutsLoopBody (leap : ℤ → ℚ → ℚ → ℚ × ℚ × ℚ) (aexp : ℚ → ℚ)
    (lu Emax : ℚ) (st : NutsLoopState) : NutsLoopState :=
  if st.s = 1 then nutsDoubling leap aexp lu Emax st else st

/-- `k` unrollings of the `while s == 1` loop of `NUTS.astep`. -/
def nutsLoop (leap : ℤ → ℚ → ℚ → ℚ × ℚ × ℚ) (aexp : ℚ → ℚ)
    (lu Emax : ℚ) (k : ℕ) (st : NutsLoopState) : NutsLoopState :=
  (nutsLoopBody leap aexp lu Emax)^[k] st

/-- The loop state at the top of `NUTS.astep`:
`q = qn = qp = q0`, `p = pn = pp = p0`, `n, s, j = 1, 1, 0`. -/
def nutsInit (q0 p0 : ℚ) (rng : List ℚ) : NutsLoopState :=
  { q := q0, qn := q0, qp := q0, p := p0, pn := p0, pp := p0,
    n := 1, s := 1, j := 0, rng := rng }

/-- A natural-number indicator equals 1 exactly when its condition holds. -/
theorem indicator_one {c : Prop} [Decidable c] : ((if c then (1 : ℕ) else 0) = 1) ↔ c := by
  split_ifs with h <;> simp [h]

/-- A triple product of naturals equals 1 exactly when every factor does. -/
theorem mul3_eq_one {a b c : ℕ} : a * b * c = 1 ↔ a = 1 ∧ b = 1 ∧ c = 1 := by
  constructor
  · intro h
    have h1 : a * b = 1 := Nat.eq_one_of_mul_eq_one_right h
    exact ⟨Nat.eq_one_of_mul_eq_one_right h1, Nat.eq_one_of_mul_eq_one_left h1,
      Nat.eq_one_of_mul_eq_one_left h⟩
  · rintro ⟨rfl, rfl, rfl⟩
    rfl

/-- The flag returned by `buildtree` is 1 exactly when every leapfrog step
in the subtree stayed below the divergence ceiling and every doubling
passed both endpoint dot-product checks. -/
theorem buildtree_s1_iff (leap : ℤ → ℚ → ℚ → ℚ × ℚ × ℚ) (aexp : ℚ → ℚ)
    (lu : ℚ) (v : ℤ) (Emax : ℚ) :
    ∀ (j : ℕ) (q p : ℚ) (rng : List ℚ),
      (buildtree leap aexp q p lu v j Emax rng).s1 = 1 ↔
        ((∀ dE ∈ (buildtree leap aexp q p lu v j Emax rng).dEs, lu + dE < Emax) ∧
         (∀ x ∈ (buildtree leap aexp q p lu v j Emax rng).dots, 0 ≤ x.1 ∧ 0 ≤ x.2)) := by
  intro j
  induction j with
  | zero =>
      intro q p rng
      simp only [buildtree]
      rw [indicator_one]
      simp
  | succ j ih =>
      intro q p rng
      by_cases hr : (buildtree leap aexp q p lu v j Emax rng).s1 = 1
      · simp only [buildtree, if_pos hr]
        rw [mul3_eq_one, indicator_one, indicator_one]
        have h1 := (ih q p rng).mp hr
        constructor
        · rintro ⟨hs2, hd1, hd2⟩
          have h2 := (ih _ _ _).mp hs2
          constructor
          · intro dE hdE
            rcases List.mem_append.mp hdE with h | h
            exacts [h1.1 dE h, h2.1 dE h]
          · intro x hx
            rcases List.mem_append.mp hx with h | h
            · rcases List.mem_append.mp h with h | h
              exacts [h1.2 x h, h2.2 x h]
            · rw [List.mem_singleton] at h
              subst h
              exact ⟨hd1, hd2⟩
        · rintro ⟨hdE, hdots⟩
          refine ⟨(ih _ _ _).mpr ⟨?_, ?_⟩, ?_, ?_⟩
          · intro dE h
            exact hdE dE (List.mem_append.mpr (Or.inr h))
          · intro x h
            exact hdots x (List.mem_append.mpr (Or.inl (List.mem_append.mpr (Or.inr h))))
          · exact (hdots _ (List.mem_append.mpr (Or.inr (List.mem_singleton.mpr rfl)))).1
          · exact (hdots _ (List.mem_append.mpr (Or.inr (List.mem_singleton.mpr rfl)))).2
      · simp only [buildtree, if_neg hr]
        exact ih q p rng

/-- Claim C6: a subtree's non-terminating flag `s1` is 1 exactly while no
divergence has occurred (`log(u) + dE < Emax` for every leapfrog step in
the subtree) and both endpoint dot products of momentum with the position
displacement `qp - qn` are non-negative at every doubling; and as soon as
the flag clears, tree expansion stops (doubling a terminated subtree
performs no further leapfrog step and returns it unchanged). -/
theorem buildtree_nonterminating (leap : ℤ → ℚ → ℚ → ℚ × ℚ × ℚ) (aexp : ℚ → ℚ)
    (q p lu : ℚ) (v : ℤ) (j : ℕ) (Emax : ℚ) (rng : List ℚ) :
    ((buildtree leap aexp q p lu v j Emax rng).s1 = 1 ↔
      ((∀ dE ∈ (buildtree leap aexp q p lu v j Emax rng).dEs, lu + dE < Emax) ∧
       (∀ x ∈ (buildtree leap aexp q p lu v j Emax rng).dots, 0 ≤ x.1 ∧ 0 ≤ x.2))) ∧
    ((buildtree leap aexp q p lu v j Emax rng).s1 ≠ 1 →
      buildtree leap aexp q p lu v (j + 1) Emax rng =
        buildtree leap aexp q p lu v j Emax rng) := by
  refine ⟨buildtree_s1_iff leap aexp lu v Emax j q p rng, fun hstop => ?_⟩
  simp only [buildtree, if_neg hstop]

/-- A leapfrog oracle for which every step diverges immediately:
`dE = 2000`, above the default ceiling `Emax = 1000`. -/
def nutsLeapDiv (_v : ℤ) (q p : ℚ) : ℚ × ℚ × ℚ := (q, p, 2000)

/-- The abstraction of `min(1, exp(-dE))` used when the accept statistic is
irrelevant to the claim being checked. -/
def aexpOne (_x : ℚ) : ℚ := 1

/-- Witness for `buildtree_nonterminating` at a concrete diverging oracle:
the depth-0 tree terminates at once, and doubling it is the identity. -/
theorem buildtree_nonterminating_witness :
    (buildtree nutsLeapDiv aexpOne 0 1 0 (-1) 0 1000 []).s1 ≠ 1 ∧
    buildtree nutsLeapDiv aexpOne 0 1 0 (-1) 1 1000 [] =
      buildtree nutsLeapDiv aexpOne 0 1 0 (-1) 0 1000 [] :=
  ⟨by norm_num [buildtree, nutsLeapDiv],
   (buildtree_nonterminating nutsLeapDiv aexpOne 0 1 0 (-1) 0 1000 []).2
     (by norm_num [buildtree, nutsLeapDiv])⟩

/-- Claim C2 (amended): the tree-doubling loop of `NUTS.astep` stops
exactly when the continue flag `s` leaves 1 — once some unrolling of the
loop has cleared the flag, every further unrolling changes nothing.  The
source has no configured maximum tree depth: no depth parameter occurs in
the loop state or its guard. -/
theorem nuts_loop_inert_after_flag_clears (leap : ℤ → ℚ → ℚ → ℚ × ℚ × ℚ)
    (aexp : ℚ → ℚ) (lu Emax : ℚ) (k m : ℕ) (st : NutsLoopState)
    (h : (nutsLoop leap aexp lu Emax k st).s ≠ 1) (hkm : k ≤ m) :
    nutsLoop leap aexp lu Emax m st = nutsLoop leap aexp lu Emax k st := by
  obtain ⟨d, rfl⟩ := Nat.exists_eq_add_of_le hkm
  unfold nutsLoop at h ⊢
  rw [Nat.add_comm, Function.iterate_add_apply]
  refine Function.iterate_fixed ?_ d
  simp only [nutsLoopBody]
  rw [if_neg h]

/-- Witness for `nuts_loop_inert_after_flag_clears`: with the immediately
diverging oracle the flag clears after one doubling, and running the loop
for three unrollings equals running it for one. -/
theorem nuts_loop_inert_after_flag_clears_witness :
    (nutsLoop nutsLeapDiv aexpOne 0 1000 1 (nutsInit 0 1 [])).s ≠ 1 ∧ 1 ≤ 3 ∧
    nutsLoop nutsLeapDiv aexpOne 0 1000 3 (nutsInit 0 1 []) =
      nutsLoop nutsLeapDiv aexpOne 0 1000 1 (nutsInit 0 1 []) := by
  have h : (nutsLoop nutsLeapDiv aexpOne 0 1000 1 (nutsInit 0 1 [])).s ≠ 1 := by
    norm_num [nutsLoop, nutsLoopBody, nutsDoubling, nutsInit, buildtree,
      nutsLeapDiv, drawU]
  exact ⟨h, by norm_num,
    nuts_loop_inert_after_flag_clears nutsLeapDiv aexpOne 0 1000 1 3
      (nutsInit 0 1 []) h (by norm_num)⟩

/-- A leapfrog oracle that drifts the position by the direction and keeps
the momentum: `leap v q p = (q + v, p, 0)`.  Every step has zero energy
error, and a backward trajectory keeps moving away from the fixed right
endpoint, so neither the divergence check nor the no-U-turn criterion ever
triggers. -/
def nutsLeapDrift (v : ℤ) (q p : ℚ) : ℚ × ℚ × ℚ := (q + v, p, 0)

/-- Under the drifting oracle with unit momentum and an exhausted deviate
stream, a backward subtree of any depth stays non-terminating, with
endpoints `q - 2^j` and `q - 1`. -/
theorem buildtree_drift (j : ℕ) : ∀ q : ℚ,
    (buildtree nutsLeapDrift aexpOne q 1 0 (-1) j 1000 []).s1 = 1 ∧
    (buildtree nutsLeapDrift aexpOne q 1 0 (-1) j 1000 []).qn = q - 2 ^ j ∧
    (buildtree nutsLeapDrift aexpOne q 1 0 (-1) j 1000 []).pn = 1 ∧
    (buildtree nutsLeapDrift aexpOne q 1 0 (-1) j 1000 []).qp = q - 1 ∧
    (buildtree nutsLeapDrift aexpOne q 1 0 (-1) j 1000 []).pp = 1 ∧
    (buildtree nutsLeapDrift aexpOne q 1 0 (-1) j 1000 []).rng = [] := by
  induction j with
  | zero =>
      intro q
      norm_num [buildtree, nutsLeapDrift]
      ring
  | succ j ih =>
      intro q
      obtain ⟨hs, hqn, hpn, hqp, hpp, hrng⟩ := ih q
      obtain ⟨hs2, hqn2, hpn2, hqp2, hpp2, hrng2⟩ := ih (q - 2 ^ j)
      have h1 : (1 : ℚ) ≤ 2 ^ j := one_le_pow₀ (by norm_num)
      simp only [buildtree]
      rw [if_pos hs]
      simp only [eq_true (rfl : (-1 : ℤ) = -1), if_true]
      rw [hqn, hpn, hqp, hpp, hrng, hs2, hqn2, hpn2, hrng2]
      refine ⟨?_, ?_, rfl, rfl, rfl, rfl⟩
      · split_ifs with hA
        · rfl
        · exact absurd (by nlinarith) hA
      · rw [pow_succ]
        ring

/-- Under the drifting oracle, every unrolling of the `NUTS.astep` doubling
loop leaves the continue flag at 1: after `k` doublings the state has
`s = 1` and depth counter `j = k`. -/
theorem nuts_loop_drift (k : ℕ) :
    (nutsLoop nutsLeapDrift aexpOne 0 1000 k (nutsInit 0 1 [])).s = 1 ∧
    (nutsLoop nutsLeapDrift aexpOne 0 1000 k (nutsInit 0 1 [])).qn = 1 - 2 ^ k ∧
    (nutsLoop nutsLeapDrift aexpOne 0 1000 k (nutsInit 0 1 [])).qp = 0 ∧
    (nutsLoop nutsLeapDrift aexpOne 0 1000 k (nutsInit 0 1 [])).pn = 1 ∧
    (nutsLoop nutsLeapDrift aexpOne 0 1000 k (nutsInit 0 1 [])).pp = 1 ∧
    (nutsLoop nutsLeapDrift aexpOne 0 1000 k (nutsInit 0 1 [])).j = k ∧
    (nutsLoop nutsLeapDrift aexpOne 0 1000 k (nutsInit 0 1 [])).rng = [] := by
  induction k with
  | zero =>
      norm_num [nutsLoop, nutsInit]
  | succ k ih =>
      obtain ⟨hs, hqn, hqp, hpn, hpp, hj, hrng⟩ := ih
      obtain ⟨hbs, hbqn, hbpn, hbqp, hbpp, hbrng⟩ := buildtree_drift k (1 - 2 ^ k)
      have h1 : (1 : ℚ) ≤ 2 ^ k := one_le_pow₀ (by norm_num)
      have hstep : nutsLoop nutsLeapDrift aexpOne 0 1000 (k + 1) (nutsInit 0 1 []) =
          nutsLoopBody nutsLeapDrift aexpOne 0 1000
            (nutsLoop nutsLeapDrift aexpOne 0 1000 k (nutsInit 0 1 [])) := by
        unfold nutsLoop
        rw [Function.iterate_succ_apply']
      rw [hstep]
      simp only [nutsLoopBody]
      rw [if_pos hs]
      simp only [nutsDoubling]
      rw [hrng]
      simp only [drawU]
      rw [if_neg (by norm_num : ¬((1 : ℚ) < 0.5))]
      simp only [eq_true (rfl : (-1 : ℤ) = -1), if_true]
      rw [hqn, hpn, hj, hbs, hbqn, hbpn, hbrng, hqp, hpp]
      simp only [eq_true (rfl : (1 : ℕ) = 1), if_true, drawU]
      refine ⟨?_, ?_, by trivial, by trivial, by trivial, by trivial, by trivial⟩
      · split_ifs with hA
        · rfl
        · exact absurd (by nlinarith) hA
      · rw [pow_succ]
        ring

/-- Claim C2 refuted at a concrete input: starting `NUTS.astep`'s doubling
loop from `q0 = 0`, `p0 = 1` with the zero-energy-error drifting oracle,
the default ceiling `Emax = 1000`, slice draw `log u = 0` and an exhausted
deviate stream (every direction draw goes backward), the continue flag is
still 1 after 64 doublings: the loop is not bounded by any configured
maximum tree depth — no such parameter exists in the source. -/
theorem nuts_loop_no_depth_ceiling :
    (nutsLoop nutsLeapDrift aexpOne 0 1000 64 (nutsInit 0 1 [])).s = 1 ∧
    (nutsLoop nutsLeapDrift aexpOne 0 1000 64 (nutsInit 0 1 [])).j = 64 :=
  ⟨(nuts_loop_drift 64).1, (nuts_loop_drift 64).2.2.2.2.2.1⟩

/-! ## Fixed-path-length HMC (src/mcex/hmc.py, `HMCStep.step`, lines 33-74; src/pymc3/step_methods/hmc/hmc.py, `HamiltonianMC.astep`, lines 59-67) -/

/-- The state threaded through the leapfrog `for i in range(step_count)`
loop of `HMCStep.step`: position, the last evaluated log-density and
gradient, momentum, and an instrumentation counter of position updates. -/
structure HMCLoopState where
  q : ℚ
  currentLogp : ℚ
  gradient : ℚ
  p : ℚ
  posUpdates : ℕ
deriving DecidableEq, Repr

/-- Embedding of the loop body of `HMCStep.step` (one-dimensional state;
the model's log-posterior and its gradient are abstracted as `logpf` and
`gradf`): each iteration moves the position by `step_size * (covariance·p)`,
re-evaluates log-density and gradient there, and performs a full momentum
update `p = p - step_size * -gradient` on every iteration but the last.
The countdown argument `r+1` corresponds to loop index `i = n - (r+1)`, so
`r = 0` is the last iteration. -/
def hmcLoop (logpf gradf : ℚ → ℚ) (cov e : ℚ) : ℕ → HMCLoopState → HMCLoopState
  | 0, st => st
  | r + 1, st =>
      let q := st.q + e * (cov * st.p)
      let lp := logpf q
      let g := gradf q
      let p := if r = 0 then st.p else st.p - e * (-g)
      hmcLoop logpf gradf cov e r ⟨q, lp, g, p, st.posUpdates + 1⟩

/-- Embedding of `HMCStep.kenergy`: `.5 * np.dot(x, np.dot(covariance, x))`
in one dimension. -/
def kenergy (cov x : ℚ) : ℚ := 0.5 * (x * (cov * x))

/-- The outcome of one `HMCStep.step` call: final position, final
(negated) momentum, the log Metropolis ratio, and the instrumented count
of leapfrog position updates. -/
structure HMCResult where
  q : ℚ
  p : ℚ
  logMetropRatio : ℚ
  posUpdates : ℕ
deriving DecidableEq, Repr

/-- Embedding of `HMCStep.step` from src/mcex/hmc.py lines 33-74 (the
current chain position enters as `q0`): compute
`step_count = int(np.floor(trajectory_length / step_size))` (a Python
`range` of a negative count is empty, matching `Int.toNat`), do the half
momentum update, run the loop, finish with the second half momentum
update, negate the momentum (`p = -p`), and form
`log_metrop_ratio = (-start_logp) - (-current_logp) + kenergy(start_p) - kenergy(p)`. -/
def hmcStep (logpf gradf : ℚ → ℚ) (cov trajLen stepSize q0 p0 : ℚ) : HMCResult :=
  let n := (⌊trajLen / stepSize⌋).toNat
  let startLogp := logpf q0
  let g0 := gradf q0
  let pHalf := p0 - (stepSize / 2) * (-g0)
  let st := hmcLoop logpf gradf cov stepSize n ⟨q0, startLogp, g0, pHalf, 0⟩
  let pEnd := st.p - (stepSize / 2) * (-st.gradient)
  let pNeg := -pEnd
  { q := st.q, p := pNeg,
    logMetropRatio :=
      (-startLogp) - (-st.currentLogp) + kenergy cov p0 - kenergy cov pNeg,
    posUpdates := st.posUpdates }

/-- The leapfrog integration as described by the spec (half momentum step,
`n` alternating position/momentum updates, closing half momentum step),
without the final negation: the reference point for stating that the code
negates the momentum afterwards. -/
def hmcLeapfrog (logpf gradf : ℚ → ℚ) (cov stepSize : ℚ) (n : ℕ) (q0 p0 : ℚ) : ℚ × ℚ :=
  let g0 := gradf q0
  let st := hmcLoop logpf gradf cov stepSize n
    ⟨q0, logpf q0, g0, p0 - (stepSize / 2) * (-g0), 0⟩
  (st.q, st.p - (stepSize / 2) * (-st.gradient))

/-- The Hamiltonian `H(q, p) = -logp(q) + kenergy(p)` whose difference
between start and end states is the acceptance log-ratio. -/
def hmcEnergy (logpf : ℚ → ℚ) (cov q p : ℚ) : ℚ := -(logpf q) + kenergy cov p

/-- The loop performs exactly as many position updates as its count. -/
theorem hmcLoop_posUpdates (logpf gradf : ℚ → ℚ) (cov e : ℚ) :
    ∀ (n : ℕ) (st : HMCLoopState),
      (hmcLoop logpf gradf cov e n st).posUpdates = st.posUpdates + n := by
  intro n
  induction n with
  | zero => intro st; simp [hmcLoop]
  | succ r ih =>
      intro st
      simp only [hmcLoop]
      rw [ih]
      dsimp only
      omega

/-- The tracked log-density always matches the tracked position. -/
theorem hmcLoop_logp (logpf gradf : ℚ → ℚ) (cov e : ℚ) :
    ∀ (n : ℕ) (st : HMCLoopState), st.currentLogp = logpf st.q →
      (hmcLoop logpf gradf cov e n st).currentLogp =
        logpf (hmcLoop logpf gradf cov e n st).q := by
  intro n
  induction n with
  | zero => intro st h; simpa [hmcLoop] using h
  | succ r ih =>
      intro st h
      simp only [hmcLoop]
      exact ih _ rfl

/-- Claim C7: in one fixed-path-length HMC step the number of leapfrog
position updates taken equals `floor(path_length / step_size)` for that
iteration's (randomized) step size; the final momentum is the negation of
the momentum produced by the leapfrog integration; and the acceptance
log-ratio is the energy change between the start state and the end state
at that negated momentum. -/
theorem hmc_step_count_negate_energy (logpf gradf : ℚ → ℚ)
    (cov trajLen stepSize q0 p0 : ℚ) (hL : 0 < trajLen) (he : 0 < stepSize) :
    ((hmcStep logpf gradf cov trajLen stepSize q0 p0).posUpdates : ℤ) =
      ⌊trajLen / stepSize⌋ ∧
    (hmcStep logpf gradf cov trajLen stepSize q0 p0).q =
      (hmcLeapfrog logpf gradf cov stepSize (⌊trajLen / stepSize⌋).toNat q0 p0).1 ∧
    (hmcStep logpf gradf cov trajLen stepSize q0 p0).p =
      -(hmcLeapfrog logpf gradf cov stepSize (⌊trajLen / stepSize⌋).toNat q0 p0).2 ∧
    (hmcStep logpf gradf cov trajLen stepSize q0 p0).logMetropRatio =
      hmcEnergy logpf cov q0 p0 -
        hmcEnergy logpf cov (hmcStep logpf gradf cov trajLen stepSize q0 p0).q
          (hmcStep logpf gradf cov trajLen stepSize q0 p0).p := by
  have hlp := hmcLoop_logp logpf gradf cov stepSize (⌊trajLen / stepSize⌋).toNat
    ⟨q0, logpf q0, gradf q0, p0 - (stepSize / 2) * (-(gradf q0)), 0⟩ rfl
  refine ⟨?_, rfl, rfl, ?_⟩
  · simp only [hmcStep]
    rw [hmcLoop_posUpdates]
    simp only [Nat.zero_add]
    exact Int.toNat_of_nonneg (Int.floor_nonneg.mpr (le_of_lt (div_pos hL he)))
  · simp only [hmcStep, hmcEnergy]
    rw [hlp]
    ring

/-- Witness for `hmc_step_count_negate_energy` at concrete inputs
(`trajectory_length = 2`, `step_size = 3/4`): the count conjunct at a
positive path length and step size. -/
theorem hmc_step_count_negate_energy_witness :
    (0 : ℚ) < 2 ∧ (0 : ℚ) < 3 / 4 ∧
    ((hmcStep (fun q => -q) (fun _ => -1) 1 2 (3 / 4) 0 1).posUpdates : ℤ) =
      ⌊(2 : ℚ) / (3 / 4)⌋ :=
  ⟨by norm_num, by norm_num,
   (hmc_step_count_negate_energy (fun q => -q) (fun _ => -1) 1 2 (3 / 4) 0 1
     (by norm_num) (by norm_num)).1⟩

/-! ## Tuning freeze (src/pymc/MCMC.py, `MCMC.tune` lines 177-209 and `MCMC._loop` lines 137-175; src/pymc3/step_methods/nuts.py, `NUTS.astep` lines 130-137) -/

/-- The sampling-driver state relevant to tuning: the loop counters, the
tuning flag and clean-interval counter, the scaling of every step method,
and an instrumentation counter of `self.tune()` invocations. -/
structure MCMCState where
  currentIter : ℕ
  iter : ℕ
  burn : ℕ
  tuneInterval : ℕ
  tuning : Bool
  tunedCount : ℕ
  scalings : List ℚ
  tuneCalls : ℕ
deriving DecidableEq, Repr

/-- Embedding of `MCMC.tune` from src/pymc/MCMC.py lines 177-209.  The step
methods' own `tune` routines live in StepMethods.py, which is not under
src/; each is abstracted as `smTune : scaling → (new scaling, whether it
adjusted)`, applied to every step method, matching the loop that sums the
step methods' return values into `tuning_count`.  Past the burn-in
boundary the flag is cleared and nothing else is touched; five consecutive
clean intervals also clear the flag. -/
def mcmcTune (smTune : ℚ → ℚ × Bool) (st : MCMCState) : MCMCState :=
  if st.burn < st.currentIter then { st with tuning := false }
  else
    let results := st.scalings.map smTune
    let tuningCount := (results.filter Prod.snd).length
    let tunedCount := if tuningCount = 0 then st.tunedCount + 1 else 0
    { st with
      scalings := results.map Prod.fst,
      tunedCount := tunedCount,
      tuning := if tunedCount = 5 then false else st.tuning }

/-- Embedding of one iteration of `MCMC._loop` (src/pymc/MCMC.py lines
143-169), restricted to the tuning-relevant state: when the guard
`i and not (i % self._tune_interval) and self._tuning` holds, `self.tune()`
runs (instrumented by `tuneCalls`); the step methods then step (their
`step()` does not touch `scaling` — modelled from the spec, section 4.2,
which changes `scaling` only under tuning; StepMethods.py is not under
src/) and the iteration counter advances. -/
def mcmcLoopIter (smTune : ℚ → ℚ × Bool) (st : MCMCState) : MCMCState :=
  if st.currentIter < st.iter then
    let st1 :=
      if st.currentIter ≠ 0 ∧ st.currentIter % st.tuneInterval = 0 ∧ st.tuning then
        { mcmcTune smTune st with tuneCalls := st.tuneCalls + 1 }
      else st
    { st1 with currentIter := st1.currentIter + 1 }
  else st

/-- `k` iterations of the sampling loop. -/
def mcmcLoop (smTune : ℚ → ℚ × Bool) (k : ℕ) (st : MCMCState) : MCMCState :=
  (mcmcLoopIter smTune)^[k] st

/-- Claim C9 (amended): once the driver's tuning flag is cleared — which
`MCMC.tune` does past the burn-in boundary or after 5 consecutive clean
tuning intervals — no later iteration of the sampling loop invokes
`tune()` again or alters any step method's scaling, for every step-method
tuning behaviour `smTune`.  (NUTS's dual-averaged step size is *not*
frozen; see the counterexample on `nutsDualAverage`.) -/
theorem mcmc_tuning_freeze (smTune : ℚ → ℚ × Bool) (k : ℕ) (st : MCMCState)
    (h : st.tuning = false) :
    (mcmcLoop smTune k st).scalings = st.scalings ∧
    (mcmcLoop smTune k st).tuneCalls = st.tuneCalls ∧
    (mcmcLoop smTune k st).tuning = false := by
  induction k with
  | zero => exact ⟨rfl, rfl, h⟩
  | succ k ih =>
      obtain ⟨h1, h2, h3⟩ := ih
      have hstep : mcmcLoop smTune (k + 1) st =
          mcmcLoopIter smTune (mcmcLoop smTune k st) := by
        unfold mcmcLoop
        rw [Function.iterate_succ_apply']
      rw [hstep]
      unfold mcmcLoopIter
      split_ifs with hlt hg
      · exact absurd hg.2.2 (by rw [h3]; exact Bool.false_ne_true)
      · exact ⟨h1, h2, h3⟩
      · exact ⟨h1, h2, h3⟩

/-- Witness for `mcmc_tuning_freeze` at a concrete frozen state: three more
loop iterations leave scaling, tune-call count and flag unchanged. -/
theorem mcmc_tuning_freeze_witness :
    (⟨7, 10, 5, 2, false, 0, [1], 3⟩ : MCMCState).tuning = false ∧
    (mcmcLoop (fun s => (s * 2, true)) 3 ⟨7, 10, 5, 2, false, 0, [1], 3⟩).scalings = [1] ∧
    (mcmcLoop (fun s => (s * 2, true)) 3 ⟨7, 10, 5, 2, false, 0, [1], 3⟩).tuneCalls = 3 ∧
    (mcmcLoop (fun s => (s * 2, true)) 3 ⟨7, 10, 5, 2, false, 0, [1], 3⟩).tuning = false :=
  ⟨rfl, (mcmc_tuning_freeze (fun s => (s * 2, true)) 3 _ rfl).1,
   (mcmc_tuning_freeze (fun s => (s * 2, true)) 3 _ rfl).2.1,
   (mcmc_tuning_freeze (fun s => (s * 2, true)) 3 _ rfl).2.2⟩

/-- The dual-averaging state of a `NUTS` instance
(src/pymc3/step_methods/nuts.py): `Hbar`, `u = log(step_size*10)`,
`step_size`, the call counter `m`, and the constants `target_accept`,
`gamma`, `t0` and `k` fixed at construction (`k` is never read by
`astep`).  Real-valued because the update applies `exp` and a square
root. -/
structure NutsDAState where
  Hbar : ℝ
  u : ℝ
  stepSize : ℝ
  m : ℕ
  targetAccept : ℝ
  gamma : ℝ
  t0 : ℝ
  k : ℝ

/-- Embedding of the dual-averaging tail of `NUTS.astep`
(src/pymc3/step_methods/nuts.py lines 132-136), executed unconditionally
on every call: `w = 1/(m + t0)`;
`Hbar = (1-w)*Hbar + w*(target_accept - a/na)`;
`step_size = exp(u - (m**.5/gamma)*Hbar)`; `m += 1`. -/
noncomputable def nutsDualAverage (st : NutsDAState) (a : ℝ) (na : ℕ) : NutsDAState :=
  let w := 1 / ((st.m : ℝ) + st.t0)
  let Hbar := (1 - w) * st.Hbar + w * (st.targetAccept - a / (na : ℝ))
  { st with
    Hbar := Hbar,
    stepSize := Real.exp (st.u - ((st.m : ℝ) ^ (0.5 : ℝ) / st.gamma) * Hbar),
    m := st.m + 1 }

/-- Claim C9 refuted at a concrete input: `NUTS.astep` has no tuning
flag — the dual-averaging update runs on every call.  At the state with
`m = 10000` (far past any burn-in), `Hbar = 0`, `u = 0`, `step_size = 5`,
and the defaults `target_accept = 0.8`, `gamma = 0.05`, `t0 = 10`,
`k = 0.75`, a call with accept statistics `a = 4`, `na = 5` rewrites
`step_size` to `exp(0) = 1 ≠ 5`: the step size is not frozen after the
tuning phase. -/
theorem nuts_step_size_not_frozen :
    (nutsDualAverage ⟨0, 0, 5, 10000, 0.8, 0.05, 10, 0.75⟩ 4 5).stepSize ≠
      (⟨0, 0, 5, 10000, 0.8, 0.05, 10, 0.75⟩ : NutsDAState).stepSize := by
  have h : (nutsDualAverage ⟨0, 0, 5, 10000, 0.8, 0.05, 10, 0.75⟩ 4 5).stepSize = 1 := by
    simp only [nutsDualAverage]
    norm_num
  rw [h]
  norm_num
